import Mathlib

/-!
Verification of the gta-img archive codec (V1/V2 IMG archives).

The Rust sources are shallowly embedded: byte streams and sinks become
`List Nat` (each element a byte value 0..255), machine integers become `Nat`
with explicit `% 2 ^ w` where the code casts, strings become lists of
character code points, and fallible operations return `Except` or carry an
explicit success flag.  Sinks with a seek cursor are modelled by `Sink`
(bytes plus position, with `Cursor<Vec<u8>>` zero-fill semantics), and
fallible sink I/O is modelled by a credit counter: an operation succeeds
while credits remain, so every prefix of the operation sequence is a
possible failure point.
-/

namespace GtaImg

/-- Number of bytes of a sector (`SECTOR_SIZE` in `lib.rs`). -/
def SECTOR_SIZE : Nat := 2048

/-- Maximum length of an entry name, excluding the null terminator (`NAME_SIZE`). -/
def NAME_SIZE : Nat := 23

/-- The null terminator byte (`NULL_TERMINATOR`). -/
def NULL_TERMINATOR : Nat := 0

/-- The V2 header magic bytes "VER2" (`VERSION_2_HEADER`). -/
def VERSION_2_HEADER : List Nat := [0x56, 0x45, 0x52, 0x32]

/-- Name length including the null terminator (`NAME_SIZE_NULL_TERMINATOR` in `read.rs`). -/
def NAME_SIZE_NULL_TERMINATOR : Nat := NAME_SIZE + 1

/-- Rust `u64::div_ceil` (used as `bytes.div_ceil(SECTOR_SIZE)` in `write.rs`). -/
def divCeil (a b : Nat) : Nat := (a + b - 1) / b

/-- The byte-narrowing pass of `to_null_terminated` in `write.rs`:
`string.chars().flat_map(u8::try_from)` keeps, in order, exactly the
characters whose code point fits in one byte and drops the rest. -/
def latin1Bytes (string : List Nat) : List Nat :=
  string.filterMap (fun c => if c < 256 then some c else none)

/-- `to_null_terminated` in `write.rs`: narrow the characters to bytes, then
`.chain(repeat(NULL_TERMINATOR)).take(NAME_SIZE).chain(once(NULL_TERMINATOR))`.
Taking 23 elements of the bytes followed by infinitely many zeros is rendered
finitely as the first 23 bytes padded with `23 - length` zeros. -/
def toNullTerminated (string : List Nat) : List Nat :=
  let bytes := latin1Bytes string
  bytes.take NAME_SIZE ++ List.replicate (NAME_SIZE - bytes.length) NULL_TERMINATOR
    ++ [NULL_TERMINATOR]

/-- `read_null_terminated` in `src/src/read.rs`.  The Rust code issues one
plain `read` into a zero-initialised 24-byte buffer — for a byte stream this
fills `min 24 (length)` bytes and never fails, leaving the tail zero — then
takes the bytes before the first null.  Returns the decoded name and the
remainder of the stream (at most 24 bytes are consumed). -/
def readNullTerminated (inner : List Nat) : List Nat × List Nat :=
  let buf := inner.take NAME_SIZE_NULL_TERMINATOR
    ++ List.replicate (NAME_SIZE_NULL_TERMINATOR - inner.length) 0
  let pos := min (buf.findIdx (fun b => b == NULL_TERMINATOR)) NAME_SIZE_NULL_TERMINATOR
  (buf.take pos, inner.drop NAME_SIZE_NULL_TERMINATOR)

/-- `to_name` in `src/gta-img/src/read.rs`: position of the first null byte
(or the whole buffer when there is none), then take that many bytes. -/
def toName (buf : List Nat) : List Nat :=
  let position := buf.findIdx (fun b => b == 0)
  buf.take position

theorem take_findIdx_null (l : List Nat) :
    l.take (l.findIdx (fun b => b == 0)) = l.takeWhile (fun b => b != 0) := by
  induction l with
  | nil => rfl
  | cons a t ih =>
    by_cases h : a = 0
    · subst h
      simp [List.findIdx_cons, List.takeWhile_cons]
    · have hb : (a == 0) = false := by simpa using h
      simp [List.findIdx_cons, List.takeWhile_cons, hb, ih, h]

theorem toName_eq_takeWhile (buf : List Nat) :
    toName buf = buf.takeWhile (fun b => b != 0) :=
  take_findIdx_null buf

theorem findIdx_le_self_length (l : List Nat) (p : Nat → Bool) :
    l.findIdx p ≤ l.length := by
  induction l with
  | nil => simp
  | cons a t ih =>
    by_cases h : p a
    · simp [List.findIdx_cons, h]
    · simp only [List.findIdx_cons, h, cond_false, List.length_cons]
      omega

theorem toNullTerminated_eq (s : List Nat) :
    toNullTerminated s = (latin1Bytes s).take 23
      ++ List.replicate (24 - ((latin1Bytes s).take 23).length) 0 := by
  have h3 : 24 - ((latin1Bytes s).take 23).length
      = (23 - (latin1Bytes s).length) + 1 := by
    rw [List.length_take]; omega
  rw [h3, List.replicate_succ']
  simp only [toNullTerminated, NAME_SIZE, NULL_TERMINATOR]
  rw [List.append_assoc]

/-- The claim id is C8.  Name encoding: for every input string the encoded
field is exactly 24 bytes — the characters whose code points fit in one byte,
kept in order (others dropped), truncated to at most 23 content bytes, then
padded with null bytes of which there is at least one. -/
theorem c8_name_encoding (s : List Nat) :
    toNullTerminated s
      = (latin1Bytes s).take 23
          ++ List.replicate (24 - ((latin1Bytes s).take 23).length) 0
    ∧ (toNullTerminated s).length = 24
    ∧ ((latin1Bytes s).take 23).length ≤ 23
    ∧ 1 ≤ 24 - ((latin1Bytes s).take 23).length
    ∧ latin1Bytes s = s.filter (fun c => decide (c < 256)) := by
  have hlen : ((latin1Bytes s).take 23).length ≤ 23 := by
    rw [List.length_take]; omega
  refine ⟨toNullTerminated_eq s, ?_, hlen, by omega, ?_⟩
  · rw [toNullTerminated_eq s]
    simp only [List.length_append, List.length_replicate]
    omega
  · unfold latin1Bytes
    induction s with
    | nil => rfl
    | cons c t ih =>
      by_cases h : c < 256
      · simp [List.filterMap_cons, List.filter_cons, h, ih]
      · simp [List.filterMap_cons, List.filter_cons, h, ih]

/-- The claim id is C10 (implicit).  Decoding a 24-byte name field takes the
bytes before the first null, one byte per code point; a field with no null
byte decodes to all 24 bytes, so a parsed name can reach 24 characters. -/
theorem c10_name_decode (buf : List Nat) (h : buf.length = 24) :
    toName buf = buf.takeWhile (fun b => b != 0)
    ∧ (readNullTerminated buf).1 = toName buf
    ∧ ((0 : Nat) ∉ buf → (toName buf).length = 24) := by
  refine ⟨toName_eq_takeWhile buf, ?_, ?_⟩
  · simp only [readNullTerminated, NAME_SIZE_NULL_TERMINATOR, NAME_SIZE,
      NULL_TERMINATOR, toName]
    have htake : buf.take (23 + 1) = buf := List.take_of_length_le (by omega)
    rw [h, htake]
    simp only [Nat.sub_self, List.replicate_zero, List.append_nil]
    have hle : buf.findIdx (fun b => b == 0) ≤ 23 + 1 := by
      have := findIdx_le_self_length buf (fun b => b == 0)
      omega
    rw [Nat.min_eq_left hle]
  · intro h0
    rw [toName_eq_takeWhile buf]
    have hSelf : buf.takeWhile (fun b => b != 0) = buf := by
      apply List.takeWhile_eq_self_iff.mpr
      intro a ha
      simp only [bne_iff_ne, ne_eq]
      intro hEq
      exact h0 (hEq ▸ ha)
    rw [hSelf, h]

/-- Witness for C10: a 24-byte field of ones decodes to 24 characters. -/
theorem c10_name_decode_witness :
    toName (List.replicate 24 1) = (List.replicate 24 1).takeWhile (fun b => b != 0)
    ∧ (readNullTerminated (List.replicate 24 1)).1 = toName (List.replicate 24 1)
    ∧ ((0 : Nat) ∉ List.replicate 24 1 → (toName (List.replicate 24 1)).length = 24) :=
  c10_name_decode (List.replicate 24 1) (by decide)

/-- An archive entry (`Entry` in `src/src/read.rs`): name as character code
points, offset and length in sectors. -/
structure Entry where
  name : List Nat
  off : Nat
  len : Nat
  deriving DecidableEq, Repr

/-- State of an opened entry (`OpenEntry` in `src/src/read.rs`): absolute
byte offset, byte length, and current read position. -/
structure EState where
  off : Nat
  len : Nat
  pos : Nat
  deriving DecidableEq, Repr

/-- One operation issued to the underlying seekable source. -/
inductive SrcOp where
  | seekTo (p : Nat)
  | readUpTo (n : Nat)
  deriving DecidableEq, Repr

/-- `Archive::open` in `src/src/read.rs`: base byte offset `off * SECTOR_SIZE`,
byte length `len * SECTOR_SIZE`, position 0. -/
def openEntry (e : Entry) : EState :=
  ⟨e.off * SECTOR_SIZE, e.len * SECTOR_SIZE, 0⟩

/-- `OpenEntry::read` in `src/src/read.rs`, against a seekable byte source
`src` with cursor semantics: a read at position `p` limited to `n` bytes
produces `min n (src.length - p)` bytes.  Returns the number of bytes
produced, the new stream state, and the operations issued to the source. -/
def entryRead (e : EState) (src : List Nat) (bufLen : Nat) :
    Nat × EState × List SrcOp :=
  if e.len ≤ e.pos then (0, e, [])
  else
    let len := min (e.len - min e.pos e.len) bufLen
    let off := min len (src.length - (e.off + e.pos))
    (off, ⟨e.off, e.len, e.pos + off⟩,
      [SrcOp.seekTo (e.off + e.pos), SrcOp.readUpTo len])

/-- Repeated `read` calls with the given buffer sizes; returns the total
number of bytes produced and the final stream state. -/
def readMany : EState → List Nat → List Nat → Nat × EState
  | e, _, [] => (0, e)
  | e, src, b :: bs =>
    let r := entryRead e src b
    let t := readMany r.2.1 src bs
    (r.1 + t.1, t.2)

theorem entryRead_of_lt (e : EState) (src : List Nat) (b : Nat)
    (h : e.pos < e.len) :
    entryRead e src b
      = (min (min (e.len - e.pos) b) (src.length - (e.off + e.pos)),
          ⟨e.off, e.len,
            e.pos + min (min (e.len - e.pos) b) (src.length - (e.off + e.pos))⟩,
          [SrcOp.seekTo (e.off + e.pos), SrcOp.readUpTo (min (e.len - e.pos) b)]) := by
  have hmin : min e.pos e.len = e.pos := Nat.min_eq_left (Nat.le_of_lt h)
  simp only [entryRead, hmin]
  rw [if_neg (by omega)]

theorem readMany_total_le (src : List Nat) (bufs : List Nat) :
    ∀ e : EState, e.pos ≤ e.len → (readMany e src bufs).1 + e.pos ≤ e.len := by
  induction bufs with
  | nil => intro e h; simpa [readMany] using h
  | cons b bs ih =>
    intro e h
    by_cases hend : e.len ≤ e.pos
    · have he : entryRead e src b = (0, e, []) := by
        simp only [entryRead]; rw [if_pos hend]
      simp only [readMany, he]
      have := ih e h
      omega
    · have hlt : e.pos < e.len := by omega
      simp only [readMany, entryRead_of_lt e src b hlt]
      have hbound : min (min (e.len - e.pos) b) (src.length - (e.off + e.pos))
          ≤ e.len - e.pos := le_trans (Nat.min_le_left _ _) (Nat.min_le_left _ _)
      have := ih ⟨e.off, e.len,
          e.pos + min (min (e.len - e.pos) b) (src.length - (e.off + e.pos))⟩
        (by simp only []; omega)
      simp only [] at this ⊢
      omega

/-- The claim id is C2.  Entry-stream read contract: at or past end-of-entry
a read returns zero bytes, leaves the state unchanged and touches no source
operation (hence sticky); otherwise it issues exactly one seek to
`base + position` followed by one read of at most `min (length - position)
(buffer size)` bytes, and adds the produced byte count to the position; the
total over any sequence of reads from a freshly opened entry never exceeds
the entry's byte length. -/
theorem c2_entry_stream_read :
    (∀ (e : EState) (src : List Nat) (b : Nat), e.len ≤ e.pos →
        entryRead e src b = (0, e, []))
    ∧ (∀ (e : EState) (src : List Nat) (b : Nat), e.pos < e.len →
        (entryRead e src b).2.2
            = [SrcOp.seekTo (e.off + e.pos), SrcOp.readUpTo (min (e.len - e.pos) b)]
        ∧ (entryRead e src b).1 ≤ min (e.len - e.pos) b
        ∧ (entryRead e src b).2.1 = ⟨e.off, e.len, e.pos + (entryRead e src b).1⟩)
    ∧ (∀ (entry : Entry) (src : List Nat) (bufs : List Nat),
        (readMany (openEntry entry) src bufs).1 ≤ entry.len * SECTOR_SIZE) := by
  refine ⟨?_, ?_, ?_⟩
  · intro e src b h
    simp only [entryRead]; rw [if_pos h]
  · intro e src b h
    rw [entryRead_of_lt e src b h]
    exact ⟨rfl, Nat.min_le_left _ _, rfl⟩
  · intro entry src bufs
    have h := readMany_total_le src bufs (openEntry entry) (by simp [openEntry])
    simpa [openEntry] using h

/-- Witness for C2 at concrete inputs: an exhausted stream yields a silent
zero read, and an in-range read issues one seek and one bounded read. -/
theorem c2_entry_stream_read_witness :
    entryRead ⟨0, 0, 0⟩ [] 5 = (0, ⟨0, 0, 0⟩, [])
    ∧ ((entryRead ⟨0, 4, 1⟩ [9, 9, 9] 2).2.2
          = [SrcOp.seekTo (0 + 1), SrcOp.readUpTo (min (4 - 1) 2)]
        ∧ (entryRead ⟨0, 4, 1⟩ [9, 9, 9] 2).1 ≤ min (4 - 1) 2
        ∧ (entryRead ⟨0, 4, 1⟩ [9, 9, 9] 2).2.1
          = ⟨0, 4, 1 + (entryRead ⟨0, 4, 1⟩ [9, 9, 9] 2).1⟩) :=
  ⟨c2_entry_stream_read.1 ⟨0, 0, 0⟩ [] 5 (by decide),
   c2_entry_stream_read.2.1 ⟨0, 4, 1⟩ [9, 9, 9] 2 (by decide)⟩

/-- Replace the bytes of `bytes` from `pos` with `data`, extending with
zeros when `pos` lies beyond the current end — the write semantics of
`std::io::Cursor<Vec<u8>>` used by the writer tests and examples. -/
def overwrite (bytes : List Nat) (pos : Nat) (data : List Nat) : List Nat :=
  let padded := bytes ++ List.replicate (pos - bytes.length) 0
  padded.take pos ++ data ++ padded.drop (pos + data.length)

/-- A write-and-seek sink: its bytes so far and its cursor position. -/
structure Sink where
  bytes : List Nat
  pos : Nat
  deriving DecidableEq, Repr

/-- `Seek::seek(SeekFrom::Start(p))`. -/
def Sink.seek (s : Sink) (p : Nat) : Sink := ⟨s.bytes, p⟩

/-- `Write::write_all(data)` at the current cursor. -/
def Sink.write (s : Sink) (data : List Nat) : Sink :=
  ⟨overwrite s.bytes s.pos data, s.pos + data.length⟩

theorem overwrite_length (bytes : List Nat) (pos : Nat) (data : List Nat) :
    (overwrite bytes pos data).length = max bytes.length (pos + data.length) := by
  simp only [overwrite, List.length_append, List.length_take, List.length_replicate,
    List.length_drop]
  omega

theorem overwrite_read_back (bytes : List Nat) (pos : Nat) (data : List Nat) :
    ((overwrite bytes pos data).drop pos).take data.length = data := by
  simp only [overwrite]
  have hlen : ((bytes ++ List.replicate (pos - bytes.length) 0).take pos).length
      = pos := by
    simp only [List.length_take, List.length_append, List.length_replicate]
    omega
  rw [List.append_assoc, List.drop_left' hlen, List.take_left' rfl]

theorem overwrite_drop_of_le (bytes : List Nat) (q : Nat) (data : List Nat)
    (p : Nat) (h1 : q + data.length ≤ p) (h2 : q ≤ bytes.length) :
    (overwrite bytes q data).drop p = bytes.drop p := by
  simp only [overwrite]
  have hz : q - bytes.length = 0 := by omega
  rw [hz]
  simp only [List.replicate_zero, List.append_nil]
  have hlen : (bytes.take q ++ data).length = q + data.length := by
    simp only [List.length_append, List.length_take]
    omega
  calc List.drop p ((bytes.take q ++ data) ++ bytes.drop (q + data.length))
      = List.drop ((bytes.take q ++ data).length + (p - (q + data.length)))
          ((bytes.take q ++ data) ++ bytes.drop (q + data.length)) := by
        rw [hlen]; congr 1; omega
    _ = List.drop (p - (q + data.length)) (bytes.drop (q + data.length)) :=
        List.drop_append _
    _ = List.drop ((q + data.length) + (p - (q + data.length))) bytes :=
        List.drop_drop _ _ _
    _ = List.drop p bytes := by congr 1; omega

theorem overwrite_slice_of_ge (bytes : List Nat) (q : Nat) (data : List Nat)
    (a k : Nat) (h1 : a + k ≤ q) (h2 : a + k ≤ bytes.length) :
    ((overwrite bytes q data).drop a).take k = (bytes.drop a).take k := by
  simp only [overwrite]
  rw [List.append_assoc]
  set padded := bytes ++ List.replicate (q - bytes.length) 0 with hp
  have hplen : padded.length = max bytes.length q := by
    simp only [hp, List.length_append, List.length_replicate]
    omega
  have hq : a ≤ (padded.take q).length := by
    simp only [List.length_take]
    omega
  rw [List.drop_append_eq_append_drop]
  rw [List.take_append_of_le_length]
  · rw [List.drop_take, List.take_take]
    have hmin : min k (q - a) = k := by omega
    rw [hmin]
    have : (padded.drop a).take k = ((bytes.drop a) ++ List.replicate (q - bytes.length) 0).take k := by
      rw [hp, List.drop_append_eq_append_drop]
      have hz : a - bytes.length = 0 := by omega
      rw [hz, List.drop_zero]
    rw [this, List.take_append_of_le_length]
    simp only [List.length_drop]
    omega
  · simp only [List.length_drop, List.length_take]
    omega

/-- Run a list of infallible state transitions against a credit counter: an
operation succeeds while credits remain and the first op without credit
fails the whole run, leaving the state as the failed call found it.  This
models a fallible I/O sink: every `?` site in a Rust `write` call is one
operation, and the counter chooses the failure point. -/
def runOps {σ : Type} : List (σ → σ) → σ → Nat → Bool × σ
  | [], s, _ => (true, s)
  | _ :: _, s, 0 => (false, s)
  | f :: fs, s, n + 1 => runOps fs (f s) n

theorem runOps_full {σ : Type} (ops : List (σ → σ)) (s : σ) (cap : Nat)
    (h : ops.length ≤ cap) :
    runOps ops s cap = (true, ops.foldl (fun t f => f t) s) := by
  induction ops generalizing s cap with
  | nil => cases cap <;> rfl
  | cons f fs ih =>
    cases cap with
    | zero => simp at h
    | succ n =>
      simp only [runOps, List.foldl_cons]
      exact ih (f s) n (by simpa using h)

theorem runOps_preserves {σ : Type} {α : Type} (proj : σ → α)
    (ops : List (σ → σ)) (h : ∀ f ∈ ops, ∀ s, proj (f s) = proj s) :
    ∀ (s : σ) (cap : Nat), proj (runOps ops s cap).2 = proj s := by
  induction ops with
  | nil => intro s cap; cases cap <;> rfl
  | cons f fs ih =>
    intro s cap
    cases cap with
    | zero => rfl
    | succ n =>
      simp only [runOps]
      rw [ih (fun g hg => h g (List.mem_cons_of_mem f hg)) (f s) n]
      exact h f (List.mem_cons_self f fs) s

/-- Little-endian 4-byte encoding, as produced by `write_u32::<LittleEndian>`
after Rust's `as u32` narrowing (the bytes encode the value mod 2^32). -/
def le32enc (n : Nat) : List Nat :=
  [n % 256, n / 256 % 256, n / 65536 % 256, n / 16777216 % 256]

/-- Little-endian 2-byte encoding, as produced by `write_u16::<LittleEndian>`
after Rust's `as u16` narrowing (the bytes encode the value mod 2^16). -/
def le16enc (n : Nat) : List Nat :=
  [n % 256, n / 256 % 256]

/-- `read_u32::<LittleEndian>` on the first four bytes of the stream (the
callers guard that four bytes exist). -/
def le32dec : List Nat → Nat
  | b0 :: b1 :: b2 :: b3 :: _ => b0 + 256 * b1 + 65536 * b2 + 16777216 * b3
  | _ => 0

/-- `read_u16::<LittleEndian>` on the first two bytes of the stream. -/
def le16dec : List Nat → Nat
  | b0 :: b1 :: _ => b0 + 256 * b1
  | _ => 0

theorem le32dec_enc (n : Nat) (rest : List Nat) :
    le32dec (le32enc n ++ rest) = n % 4294967296 := by
  simp only [le32enc, le32dec, List.cons_append, List.nil_append]
  omega

theorem le16dec_enc (n : Nat) (rest : List Nat) :
    le16dec (le16enc n ++ rest) = n % 65536 := by
  simp only [le16enc, le16dec, List.cons_append, List.nil_append]
  omega

/-- `remainder_padded_bytes` in `src/src/write.rs`:
`vec![0; (sectors * SECTOR_SIZE).saturating_sub(bytes)]` (Nat subtraction is
saturating). -/
def remainder_padded_bytes (sectors bytes : Nat) : List Nat :=
  List.replicate (sectors * SECTOR_SIZE - bytes) 0

/-- `V1Writer` state: the append-only `dir` sink, the seekable `img` sink,
and the sector cursor. -/
structure V1W where
  dir : List Nat
  img : Sink
  sector : Nat
  deriving DecidableEq, Repr

/-- The six fallible sink operations of `V1Writer::write`, in program order:
seek the img to the data offset, copy the payload, write the sector padding,
write the offset and length records to the dir, write the encoded name to
the dir. -/
def v1writeOps (offset length : Nat) (name src : List Nat) : List (V1W → V1W) :=
  [fun u => { u with img := u.img.seek (offset * SECTOR_SIZE) },
   fun u => { u with img := u.img.write src },
   fun u => { u with img := u.img.write (remainder_padded_bytes length src.length) },
   fun u => { u with dir := u.dir ++ le32enc offset },
   fun u => { u with dir := u.dir ++ le32enc length },
   fun u => { u with dir := u.dir ++ toNullTerminated name }]

/-- `V1Writer::write` in `src/src/write.rs`.  On success the sector cursor
advances by the payload's sector length; on failure the call returns with
the cursor untouched. -/
def v1write (w : V1W) (name : List Nat) (src : List Nat) (cap : Nat) :
    Bool × V1W :=
  let offset := w.sector
  let length := divCeil src.length SECTOR_SIZE
  match runOps (v1writeOps offset length name src) w cap with
  | (true, w') => (true, { w' with sector := w'.sector + length })
  | (false, w') => (false, w')

/-- Outcome of a `V2Writer::write` call (`Result<(), WriteError>`). -/
inductive WResult where
  | ok
  | ioError
  | insufficientHeaderSize
  deriving DecidableEq, Repr

/-- `V2Writer` state: the combined seekable sink, the sector cursor, the
declared entry count and the number of entries written. -/
structure V2W where
  img : Sink
  sector : Nat
  entries : Nat
  written : Nat
  deriving DecidableEq, Repr

/-- `VERSION_2_HEADER_ENTRY_OFFSET` in `src/src/write.rs`. -/
def VERSION_2_HEADER_ENTRY_OFFSET : Nat := 8

/-- `VERSION_2_HEADER_ENTRY_SIZE` in `src/src/write.rs`. -/
def VERSION_2_HEADER_ENTRY_SIZE : Nat := 32

/-- `V2Writer::new` in `src/src/write.rs`: seek to 0, write the magic, write
the entry count (three fallible operations); the initial sector cursor is
`(8 + 32 * entries).div_ceil(SECTOR_SIZE)`. -/
def v2new (img : Sink) (entries : Nat) (cap : Nat) : Bool × V2W :=
  let ops : List (Sink → Sink) :=
    [fun s => s.seek 0,
     fun s => s.write VERSION_2_HEADER,
     fun s => s.write (le32enc entries)]
  let sector := divCeil (VERSION_2_HEADER_ENTRY_OFFSET
    + VERSION_2_HEADER_ENTRY_SIZE * entries) SECTOR_SIZE
  match runOps ops img cap with
  | (ok, img') => (ok, ⟨img', sector, entries, 0⟩)

/-- The eight fallible sink operations of `V2Writer::write`, in program
order: seek to the data offset, copy the payload, write the padding, seek to
the header slot of the current written count, write the 32-bit offset, the
16-bit (`as u16`-truncated) length, the 16-bit zero, and the encoded name. -/
def v2writeOps (offset length : Nat) (name src : List Nat) : List (V2W → V2W) :=
  [fun u => { u with img := u.img.seek (offset * SECTOR_SIZE) },
   fun u => { u with img := u.img.write src },
   fun u => { u with img := u.img.write (remainder_padded_bytes length src.length) },
   fun u => { u with img := u.img.seek (VERSION_2_HEADER_ENTRY_OFFSET
     + VERSION_2_HEADER_ENTRY_SIZE * u.written) },
   fun u => { u with img := u.img.write (le32enc offset) },
   fun u => { u with img := u.img.write (le16enc length) },
   fun u => { u with img := u.img.write (le16enc 0) },
   fun u => { u with img := u.img.write (toNullTerminated name) }]

/-- `V2Writer::write` in `src/src/write.rs`.  First the capacity check
(`written >= entries` fails with `InsufficientHeaderSize` before any sink
operation); then the eight sink operations.  On success the sector cursor
and the written count advance; on failure they are untouched. -/
def v2write (w : V2W) (name : List Nat) (src : List Nat) (cap : Nat) :
    WResult × V2W :=
  if w.entries ≤ w.written then (WResult.insufficientHeaderSize, w)
  else
    let offset := w.sector
    let length := divCeil src.length SECTOR_SIZE
    match runOps (v2writeOps offset length name src) w cap with
    | (true, w') => (WResult.ok,
        { w' with sector := w'.sector + length, written := w'.written + 1 })
    | (false, w') => (WResult.ioError, w')

/-- The claim id is C5.  V2 capacity rejection is atomic: a write attempted
once the declared count is exhausted returns the insufficient-header-size
error and returns the writer — sink bytes, sector cursor and written count —
exactly as it was. -/
theorem c5_v2_capacity_atomic (w : V2W) (name src : List Nat) (cap : Nat)
    (h : w.written = w.entries) :
    v2write w name src cap = (WResult.insufficientHeaderSize, w) := by
  simp only [v2write]
  rw [if_pos (by omega)]

/-- Witness for C5: a writer declared for one entry with one entry written
rejects the next write and is returned unchanged. -/
theorem c5_v2_capacity_atomic_witness :
    v2write ⟨⟨[1, 2, 3], 0⟩, 3, 1, 1⟩ [65] [7, 7] 99
      = (WResult.insufficientHeaderSize, ⟨⟨[1, 2, 3], 0⟩, 3, 1, 1⟩) :=
  c5_v2_capacity_atomic ⟨⟨[1, 2, 3], 0⟩, 3, 1, 1⟩ [65] [7, 7] 99 (by decide)

theorem v1writeOps_sector (offset length : Nat) (name src : List Nat) :
    ∀ f ∈ v1writeOps offset length name src, ∀ s, (f s).sector = s.sector := by
  intro f hf s
  simp only [v1writeOps] at hf
  fin_cases hf <;> rfl

theorem v2writeOps_sector (offset length : Nat) (name src : List Nat) :
    ∀ f ∈ v2writeOps offset length name src, ∀ s, (f s).sector = s.sector := by
  intro f hf s
  simp only [v2writeOps] at hf
  fin_cases hf <;> rfl

theorem v2writeOps_written (offset length : Nat) (name src : List Nat) :
    ∀ f ∈ v2writeOps offset length name src, ∀ s, (f s).written = s.written := by
  intro f hf s
  simp only [v2writeOps] at hf
  fin_cases hf <;> rfl

theorem v1write_fail_state (w : V1W) (name src : List Nat) (cap : Nat) :
    (v1write w name src cap).1 = false →
      (v1write w name src cap).2.sector = w.sector := by
  simp only [v1write]
  rcases hrun : runOps (v1writeOps w.sector (divCeil src.length SECTOR_SIZE)
      name src) w cap with ⟨ok, w'⟩
  cases ok with
  | true => simp
  | false =>
    intro _
    have hpres := runOps_preserves (fun u : V1W => u.sector)
      (v1writeOps w.sector (divCeil src.length SECTOR_SIZE) name src)
      (v1writeOps_sector _ _ _ _) w cap
    rw [hrun] at hpres
    simpa using hpres

theorem v2write_fail_state (w : V2W) (name src : List Nat) (cap : Nat) :
    (v2write w name src cap).1 = WResult.ioError →
      (v2write w name src cap).2.sector = w.sector
      ∧ (v2write w name src cap).2.written = w.written := by
  simp only [v2write]
  by_cases hcap : w.entries ≤ w.written
  · rw [if_pos hcap]
    intro h
    simp at h
  · rw [if_neg hcap]
    rcases hrun : runOps (v2writeOps w.sector (divCeil src.length SECTOR_SIZE)
        name src) w cap with ⟨ok, w'⟩
    cases ok with
    | true => simp
    | false =>
      intro _
      have hs := runOps_preserves (fun u : V2W => u.sector)
        (v2writeOps w.sector (divCeil src.length SECTOR_SIZE) name src)
        (v2writeOps_sector _ _ _ _) w cap
      have hw := runOps_preserves (fun u : V2W => u.written)
        (v2writeOps w.sector (divCeil src.length SECTOR_SIZE) name src)
        (v2writeOps_written _ _ _ _) w cap
      rw [hrun] at hs hw
      exact ⟨hs, hw⟩

/-- The claim id is C6.  Writer cursor preserved on I/O failure: whenever a
V1 or V2 write call fails with an I/O error — at any of the underlying seek,
copy or metadata-write operations, chosen here by the credit counter — the
sector cursor (and for V2 also the written count) is exactly as before the
call. -/
theorem c6_writer_cursor_on_failure :
    (∀ (w : V1W) (name src : List Nat) (cap : Nat),
        (v1write w name src cap).1 = false →
          (v1write w name src cap).2.sector = w.sector)
    ∧ (∀ (w : V2W) (name src : List Nat) (cap : Nat),
        (v2write w name src cap).1 = WResult.ioError →
          (v2write w name src cap).2.sector = w.sector
          ∧ (v2write w name src cap).2.written = w.written) :=
  ⟨v1write_fail_state, v2write_fail_state⟩

/-- Witness for C6: a failure injected at the third operation of a V1 write
and at the fifth operation of a V2 write leaves the cursors unchanged. -/
theorem c6_writer_cursor_on_failure_witness :
    (v1write ⟨[], ⟨[], 0⟩, 7⟩ [65] [9] 2).1 = false
    ∧ (v1write ⟨[], ⟨[], 0⟩, 7⟩ [65] [9] 2).2.sector = 7
    ∧ (v2write ⟨⟨[], 0⟩, 1, 2, 0⟩ [65] [9] 4).1 = WResult.ioError
    ∧ (v2write ⟨⟨[], 0⟩, 1, 2, 0⟩ [65] [9] 4).2.sector = 1
    ∧ (v2write ⟨⟨[], 0⟩, 1, 2, 0⟩ [65] [9] 4).2.written = 0 := by
  have h1 : (v1write ⟨[], ⟨[], 0⟩, 7⟩ [65] [9] 2).1 = false := by decide
  have h2 : (v2write ⟨⟨[], 0⟩, 1, 2, 0⟩ [65] [9] 4).1 = WResult.ioError := by decide
  have hv1 := c6_writer_cursor_on_failure.1 ⟨[], ⟨[], 0⟩, 7⟩ [65] [9] 2 h1
  have hv2 := c6_writer_cursor_on_failure.2 ⟨⟨[], 0⟩, 1, 2, 0⟩ [65] [9] 4 h2
  exact ⟨h1, hv1, h2, hv2.1, hv2.2⟩

/-- `ReadError` in `src/src/error.rs`.  In the pure byte-stream model the
only I/O error that can arise is an unexpected end of stream, so `ioError`
stands for `ReadError::IoError(_)`. -/
inductive ReadErr where
  | ioError
  | invalidHeader
  deriving DecidableEq, Repr

/-- `V1Reader::read` in `src/src/read.rs`.  Loop: `read_u32` of the offset —
fewer than four bytes left yields `UnexpectedEof`, which breaks the loop
successfully; `read_u32` of the length — fewer than four further bytes is an
error that propagates; then the name via `read_null_terminated`, which never
fails and consumes at most 24 bytes, so the remainder is `dir.drop 32`. -/
def v1parse (dir : List Nat) : Except ReadErr (List Entry) :=
  if h4 : dir.length < 4 then Except.ok []
  else if h8 : dir.length < 8 then Except.error ReadErr.ioError
  else
    let off := le32dec dir
    let len := le32dec (dir.drop 4)
    let name := (readNullTerminated (dir.drop 8)).1
    match v1parse (dir.drop 32) with
    | Except.ok es => Except.ok ({ name := name, off := off, len := len } :: es)
    | Except.error e => Except.error e
termination_by dir.length
decreasing_by simp only [List.length_drop]; omega

theorem v1parse_eof (dir : List Nat) (h : dir.length < 4) :
    v1parse dir = Except.ok [] := by
  rw [v1parse.eq_def]
  simp [h]

theorem v1parse_short (dir : List Nat) (h4 : 4 ≤ dir.length)
    (h8 : dir.length < 8) : v1parse dir = Except.error ReadErr.ioError := by
  rw [v1parse.eq_def]
  simp only [dif_neg (by omega : ¬dir.length < 4)]
  simp [h8]

theorem v1parse_step (dir : List Nat) (h8 : 8 ≤ dir.length) :
    v1parse dir = match v1parse (dir.drop 32) with
      | Except.ok es => Except.ok
          ({ name := (readNullTerminated (dir.drop 8)).1,
             off := le32dec dir, len := le32dec (dir.drop 4) } :: es)
      | Except.error e => Except.error e := by
  rw [v1parse.eq_def]
  simp only [dif_neg (by omega : ¬dir.length < 4),
    dif_neg (by omega : ¬dir.length < 8)]

/-- The record-table loop of `V2Reader::read` in `src/src/read.rs`, reading
`n` records: `read_u32` offset, `read_u16` length, `read_u16` unused — each
propagating `UnexpectedEof` when its bytes are missing — then the name via
`read_null_terminated`, which never fails; the remainder is `stream.drop 32`. -/
def v2records : List Nat → Nat → Except ReadErr (List Entry)
  | _, 0 => Except.ok []
  | stream, n + 1 =>
    if stream.length < 4 then Except.error ReadErr.ioError
    else if stream.length < 6 then Except.error ReadErr.ioError
    else if stream.length < 8 then Except.error ReadErr.ioError
    else
      let off := le32dec stream
      let len := le16dec (stream.drop 4)
      let name := (readNullTerminated (stream.drop 8)).1
      match v2records (stream.drop 32) n with
      | Except.ok es => Except.ok ({ name := name, off := off, len := len } :: es)
      | Except.error e => Except.error e

/-- `V2Reader::read` in `src/src/read.rs`: `read_exact` of the 4-byte header
(fewer than four bytes is an I/O error), the magic comparison (mismatch is
`ReadError::InvalidHeader`), `read_u32` of the count, then the record table. -/
def v2parse (img : List Nat) : Except ReadErr (List Entry) :=
  if img.length < 4 then Except.error ReadErr.ioError
  else if img.take 4 ≠ VERSION_2_HEADER then Except.error ReadErr.invalidHeader
  else if img.length < 8 then Except.error ReadErr.ioError
  else v2records (img.drop 8) (le32dec (img.drop 4))

theorem v2records_spec (n : Nat) : ∀ s : List Nat,
    ((n = 0 ∨ 32 * n ≤ s.length + 24) → ∃ es, v2records s n = Except.ok es)
    ∧ (¬(n = 0 ∨ 32 * n ≤ s.length + 24) →
        v2records s n = Except.error ReadErr.ioError) := by
  induction n with
  | zero =>
    intro s
    exact ⟨fun _ => ⟨[], rfl⟩, fun h => absurd (Or.inl rfl) h⟩
  | succ n ih =>
    intro s
    by_cases h8 : s.length < 8
    · have herr : v2records s (n + 1) = Except.error ReadErr.ioError := by
        simp only [v2records]
        split_ifs <;> first | rfl | omega
      refine ⟨fun hc => ?_, fun _ => herr⟩
      exfalso
      rcases hc with hc | hc
      · omega
      · omega
    · have hunf : v2records s (n + 1)
          = match v2records (s.drop 32) n with
            | Except.ok es => Except.ok
                ({ name := (readNullTerminated (s.drop 8)).1,
                   off := le32dec s, len := le16dec (s.drop 4) } :: es)
            | Except.error e => Except.error e := by
        simp only [v2records]
        rw [if_neg (by omega), if_neg (by omega), if_neg (by omega)]
      have hdlen : (s.drop 32).length = s.length - 32 := by simp
      rcases ih (s.drop 32) with ⟨hok, herr⟩
      constructor
      · intro hc
        obtain ⟨es, hes⟩ := hok (by rw [hdlen]; omega)
        rw [hunf, hes]
        exact ⟨_, rfl⟩
      · intro hc
        rw [hunf, herr (by rw [hdlen]; omega)]

/-- The claim id is C3 (corrected).  The claim as stated is false: because
`read_null_terminated` issues a plain `read` rather than `read_exact`,
end-of-stream inside the 24-byte name field does NOT fail V1 parsing.  Here a
9-byte index stream — one full offset field, one full length field, one name
byte — parses successfully to one entry with the truncated name, although it
is not a sequence of complete 32-byte records. -/
theorem c3_counterexample :
    v1parse [0, 0, 0, 0, 0, 0, 0, 0, 65]
      = Except.ok [{ name := [65], off := 0, len := 0 }]
    ∧ [0, 0, 0, 0, 0, 0, 0, 0, 65].length % 32 ≠ 0 := by
  constructor
  · rw [v1parse_step _ (by decide)]
    have h : List.drop 32 [0, 0, 0, 0, 0, 0, 0, 0, 65] = ([] : List Nat) := by decide
    rw [h, v1parse_eof [] (by decide)]
    rfl
  · decide

/-- The claim id is C3 (amended).  V1 parse termination versus failure:
parsing fails (with the I/O error) exactly when the stream length mod 32
lies in `[4, 8)` — end-of-stream inside the 4-byte length field; an
end-of-stream at a record boundary or inside the 4-byte offset field
terminates the parse successfully, and end-of-stream inside the 24-byte name
field is tolerated, the final entry keeping the bytes read so far as its
name.  A successful parse returns `length / 32` entries, plus one more when
`length % 32 ≥ 8`; in particular a stream of exactly `k` complete 32-byte
records yields exactly `k` entries. -/
theorem v1parse_spec_aux (k : Nat) : ∀ dir : List Nat, dir.length ≤ k →
    (dir.length % 32 < 4 →
      ∃ es, v1parse dir = Except.ok es ∧ es.length = dir.length / 32)
    ∧ (8 ≤ dir.length % 32 →
      ∃ es, v1parse dir = Except.ok es ∧ es.length = dir.length / 32 + 1)
    ∧ (4 ≤ dir.length % 32 → dir.length % 32 < 8 →
        v1parse dir = Except.error ReadErr.ioError) := by
  induction k with
  | zero =>
    intro dir hk
    refine ⟨fun _ => ⟨[], v1parse_eof dir (by omega), by simp; omega⟩,
      fun hc => by exfalso; omega, fun hc _ => by exfalso; omega⟩
  | succ k ih =>
    intro dir hk
    by_cases h4 : dir.length < 4
    · have hm : dir.length % 32 = dir.length := Nat.mod_eq_of_lt (by omega)
      refine ⟨fun _ => ⟨[], v1parse_eof dir (by omega), by simp; omega⟩,
        fun hc => by exfalso; omega, fun hc _ => by exfalso; omega⟩
    · by_cases h8 : dir.length < 8
      · have hm : dir.length % 32 = dir.length := Nat.mod_eq_of_lt (by omega)
        exact ⟨fun hc => by exfalso; omega, fun hc => by exfalso; omega,
          fun _ _ => v1parse_short dir (by omega) (by omega)⟩
      · have hstep := v1parse_step dir (by omega)
        have hdlen : (dir.drop 32).length = dir.length - 32 := by simp
        have hrec := ih (dir.drop 32) (by omega)
        rw [hdlen] at hrec
        have case1 : dir.length % 32 < 4 →
            ∃ es, v1parse dir = Except.ok es ∧ es.length = dir.length / 32 := by
          intro hc
          have h32 : 32 ≤ dir.length := by clear * - hc h4 h8; omega
          obtain ⟨es, hok, hlen⟩ := hrec.1 (by clear * - hc h32; omega)
          rw [hok] at hstep
          refine ⟨Entry.mk (readNullTerminated (dir.drop 8)).1 (le32dec dir)
            (le32dec (dir.drop 4)) :: es, hstep, ?_⟩
          simp only [List.length_cons]
          clear * - hlen hc h32
          omega
        have case2 : 8 ≤ dir.length % 32 →
            ∃ es, v1parse dir = Except.ok es ∧ es.length = dir.length / 32 + 1 := by
          intro hc
          by_cases h32 : dir.length < 32
          · obtain ⟨es, hok, hlen⟩ := hrec.1 (by clear * - hc h32 h4 h8; omega)
            rw [hok] at hstep
            refine ⟨Entry.mk (readNullTerminated (dir.drop 8)).1 (le32dec dir)
              (le32dec (dir.drop 4)) :: es, hstep, ?_⟩
            simp only [List.length_cons]
            clear * - hlen hc h32 h8
            omega
          · obtain ⟨es, hok, hlen⟩ := hrec.2.1 (by clear * - hc h32; omega)
            rw [hok] at hstep
            refine ⟨Entry.mk (readNullTerminated (dir.drop 8)).1 (le32dec dir)
              (le32dec (dir.drop 4)) :: es, hstep, ?_⟩
            simp only [List.length_cons]
            clear * - hlen hc h32
            omega
        have case3 : 4 ≤ dir.length % 32 → dir.length % 32 < 8 →
            v1parse dir = Except.error ReadErr.ioError := by
          intro hc1 hc2
          have h32 : 32 ≤ dir.length := by clear * - hc1 hc2 h4 h8; omega
          rw [hrec.2.2 (by clear * - hc1 hc2 h32; omega)
            (by clear * - hc1 hc2 h32; omega)] at hstep
          exact hstep
        exact ⟨case1, case2, case3⟩

/-- The claim id is C3 (amended).  V1 parse termination versus failure:
parsing fails (with the I/O error) exactly when the stream length mod 32
lies in `[4, 8)` — end-of-stream inside the 4-byte length field; an
end-of-stream at a record boundary or inside the 4-byte offset field
terminates the parse successfully, and end-of-stream inside the 24-byte name
field is tolerated, the final entry keeping the bytes read so far as its
name.  A successful parse returns `length / 32` entries when `length % 32 <
4`, and `length / 32 + 1` entries when `length % 32 ≥ 8`; in particular a
stream of exactly `k` complete 32-byte records yields exactly `k` entries. -/
theorem c3_v1_parse_termination (dir : List Nat) :
    (dir.length % 32 < 4 →
      ∃ es, v1parse dir = Except.ok es ∧ es.length = dir.length / 32)
    ∧ (8 ≤ dir.length % 32 →
      ∃ es, v1parse dir = Except.ok es ∧ es.length = dir.length / 32 + 1)
    ∧ (4 ≤ dir.length % 32 → dir.length % 32 < 8 →
        v1parse dir = Except.error ReadErr.ioError) :=
  v1parse_spec_aux dir.length dir (Nat.le_refl _)

/-- Witness for C3: a 32-byte stream of one complete record parses to one
entry, a 9-byte stream (end-of-stream in the name field) still parses to one
entry, and a 5-byte stream (end-of-stream inside the length field) fails. -/
theorem c3_v1_parse_termination_witness :
    (∃ es, v1parse (List.replicate 32 0) = Except.ok es
      ∧ es.length = (List.replicate (32 : Nat) (0 : Nat)).length / 32)
    ∧ (∃ es, v1parse [1, 0, 0, 0, 2, 0, 0, 0, 65] = Except.ok es
      ∧ es.length = [1, 0, 0, 0, 2, 0, 0, 0, 65].length / 32 + 1)
    ∧ v1parse [1, 1, 1, 1, 1] = Except.error ReadErr.ioError :=
  ⟨(c3_v1_parse_termination (List.replicate 32 0)).1 (by decide),
   (c3_v1_parse_termination [1, 0, 0, 0, 2, 0, 0, 0, 65]).2.1 (by decide),
   (c3_v1_parse_termination [1, 1, 1, 1, 1]).2.2 (by decide) (by decide)⟩

/-- The claim id is C4 (corrected).  The claim as stated is false: because
`read_null_terminated` issues a plain `read` rather than `read_exact`,
end-of-stream inside a record's 24-byte name field is tolerated by V2
parsing rather than propagated.  Here a V2 stream declaring one entry whose
name field is cut off after two bytes parses successfully. -/
theorem c4_counterexample :
    v2parse [0x56, 0x45, 0x52, 0x32, 1, 0, 0, 0, 5, 0, 0, 0, 2, 0, 0, 0, 65, 66]
      = Except.ok [{ name := [65, 66], off := 5, len := 2 }] := by
  rfl

/-- Witness lists for the C4 amended theorem are built from the header, a
little-endian count and a table; this helper states the decomposition. -/
theorem v2parse_decompose (n : Nat) (s : List Nat) (hn : n < 4294967296) :
    v2parse (VERSION_2_HEADER ++ le32enc n ++ s) = v2records s n := by
  have hlen : (VERSION_2_HEADER ++ le32enc n ++ s).length = 8 + s.length := by
    simp only [List.length_append, VERSION_2_HEADER, le32enc, List.length_cons,
      List.length_nil]
  have htake : (VERSION_2_HEADER ++ le32enc n ++ s).take 4 = VERSION_2_HEADER := by
    rw [List.append_assoc,
      List.take_append_of_le_length (by simp [VERSION_2_HEADER])]
    simp [VERSION_2_HEADER]
  have hdrop4 : (VERSION_2_HEADER ++ le32enc n ++ s).drop 4 = le32enc n ++ s := by
    rw [List.append_assoc]
    exact List.drop_left' (by simp [VERSION_2_HEADER])
  have hdrop8 : (VERSION_2_HEADER ++ le32enc n ++ s).drop 8 = s := by
    exact List.drop_left' (by simp [VERSION_2_HEADER, le32enc])
  simp only [v2parse, hlen, htake, hdrop4, hdrop8]
  rw [if_neg (by omega), if_neg (by simp), if_neg (by omega), le32dec_enc,
    Nat.mod_eq_of_lt hn]

/-- The claim id is C4 (amended).  V2 parse error behaviour: a readable
4-byte header differing from `VER2` fails with the invalid-header error;
otherwise the parser reads a 4-byte little-endian count `n` and `n` 32-byte
records, and an end-of-stream inside a record's offset, length or reserved
field — the table stopping more than 24 bytes short of `32 * n` — is
propagated as an I/O failure; but an end-of-stream inside a record's
trailing 24-byte name field is tolerated, the entry keeping the bytes read
so far as its name. -/
theorem c4_v2_parse_errors :
    (∀ img : List Nat, 4 ≤ img.length → img.take 4 ≠ VERSION_2_HEADER →
        v2parse img = Except.error ReadErr.invalidHeader)
    ∧ (∀ (s : List Nat) (n : Nat),
        ((n = 0 ∨ 32 * n ≤ s.length + 24) → ∃ es, v2records s n = Except.ok es)
        ∧ (¬(n = 0 ∨ 32 * n ≤ s.length + 24) →
            v2records s n = Except.error ReadErr.ioError))
    ∧ (∀ (n : Nat) (s : List Nat), n < 4294967296 →
        v2parse (VERSION_2_HEADER ++ le32enc n ++ s) = v2records s n) := by
  refine ⟨?_, fun s n => v2records_spec n s, fun n s hn => v2parse_decompose n s hn⟩
  intro img h4 hneq
  simp only [v2parse]
  rw [if_neg (by omega), if_pos hneq]

/-- Witness for C4: a wrong magic fails with the invalid-header error; a
table two bytes into a record's length field fails with the I/O error, and a
table cut inside the name field still parses. -/
theorem c4_v2_parse_errors_witness :
    v2parse [9, 9, 9, 9, 1, 0, 0, 0] = Except.error ReadErr.invalidHeader
    ∧ (∃ es, v2records [5, 0, 0, 0, 2, 0, 0, 0] 1 = Except.ok es)
    ∧ v2records [5, 0, 0, 0, 2, 0] 1 = Except.error ReadErr.ioError
    ∧ v2parse (VERSION_2_HEADER ++ le32enc 2 ++ [1, 2, 3]) = v2records [1, 2, 3] 2 :=
  ⟨c4_v2_parse_errors.1 [9, 9, 9, 9, 1, 0, 0, 0] (by decide) (by decide),
   (c4_v2_parse_errors.2.1 [5, 0, 0, 0, 2, 0, 0, 0] 1).1 (by decide),
   (c4_v2_parse_errors.2.1 [5, 0, 0, 0, 2, 0] 1).2 (by decide),
   c4_v2_parse_errors.2.2 2 [1, 2, 3] (by decide)⟩

theorem toNullTerminated_length (s : List Nat) :
    (toNullTerminated s).length = 24 := by
  rw [toNullTerminated_eq s]
  simp only [List.length_append, List.length_replicate, List.length_take]
  omega

theorem latin1Bytes_eq_self (s : List Nat) (h : ∀ c ∈ s, c < 256) :
    latin1Bytes s = s := by
  induction s with
  | nil => rfl
  | cons c t ih =>
    have hc : c < 256 := h c (List.mem_cons_self c t)
    have ht := ih (fun x hx => h x (List.mem_cons_of_mem c hx))
    simp only [latin1Bytes] at ht
    simp only [latin1Bytes, List.filterMap_cons, if_pos hc]
    rw [ht]

theorem toNullTerminated_of_valid (name : List Nat) (h23 : name.length ≤ 23)
    (hchars : ∀ c ∈ name, c < 256) :
    toNullTerminated name = name ++ List.replicate (24 - name.length) 0 := by
  rw [toNullTerminated_eq, latin1Bytes_eq_self name hchars,
    List.take_of_length_le h23]

theorem findIdx_null_append (content : List Nat) (k : Nat) (hk : 1 ≤ k)
    (h : ∀ c ∈ content, c ≠ 0) :
    (content ++ List.replicate k 0).findIdx (fun b => b == 0) = content.length := by
  induction content with
  | nil =>
    cases k with
    | zero => omega
    | succ j => simp [List.replicate_succ, List.findIdx_cons]
  | cons a t ih =>
    have ha : (a == 0) = false := by
      simpa using h a (List.mem_cons_self a t)
    simp only [List.cons_append, List.findIdx_cons, ha, cond_false,
      List.length_cons]
    rw [ih (fun c hc => h c (List.mem_cons_of_mem a hc))]

/-- Reading back an encoded name: `read_null_terminated` applied to a stream
beginning with an encoded valid name recovers that name. -/
theorem readNullTerminated_encode (name rest : List Nat)
    (h23 : name.length ≤ 23) (hchars : ∀ c ∈ name, 0 < c ∧ c < 256) :
    (readNullTerminated (toNullTerminated name ++ rest)).1 = name := by
  have henc : toNullTerminated name = name ++ List.replicate (24 - name.length) 0 :=
    toNullTerminated_of_valid name h23 (fun c hc => (hchars c hc).2)
  have henclen : (toNullTerminated name).length = 24 := toNullTerminated_length name
  simp only [readNullTerminated, NAME_SIZE_NULL_TERMINATOR, NAME_SIZE,
    NULL_TERMINATOR]
  have hstreamlen : (toNullTerminated name ++ rest).length = 24 + rest.length := by
    simp [henclen]
  rw [hstreamlen]
  have htake : (toNullTerminated name ++ rest).take (23 + 1) = toNullTerminated name :=
    List.take_left' henclen
  rw [htake]
  have hz : 23 + 1 - (24 + rest.length) = 0 := by omega
  rw [hz]
  simp only [List.replicate_zero, List.append_nil]
  rw [henc, findIdx_null_append name (24 - name.length) (by omega)
    (fun c hc => by have := (hchars c hc).1; omega)]
  rw [Nat.min_eq_left (by omega)]
  exact List.take_left' rfl

/-- Total payload size in sectors of a write list. -/
def sectorSum (ps : List (List Nat × List Nat)) : Nat :=
  (ps.map (fun pr => divCeil pr.2.length SECTOR_SIZE)).sum

/-- The success path of `V1Writer::write`: with all six credits the call
succeeds and appends one record to the dir, writes the payload and padding
to the img, and advances the sector cursor. -/
theorem v1write_six (w : V1W) (name src : List Nat) :
    v1write w name src 6 = (true, V1W.mk
      (w.dir ++ le32enc w.sector ++ le32enc (divCeil src.length SECTOR_SIZE)
        ++ toNullTerminated name)
      (((w.img.seek (w.sector * SECTOR_SIZE)).write src).write
        (remainder_padded_bytes (divCeil src.length SECTOR_SIZE) src.length))
      (w.sector + divCeil src.length SECTOR_SIZE)) := rfl

/-- Writing a list of (name, payload) pairs through the V1 writer, each
write succeeding (all six credits). -/
def v1writeAll : V1W → List (List Nat × List Nat) → V1W
  | w, [] => w
  | w, (name, src) :: rest => v1writeAll (v1write w name src 6).2 rest

/-- The dir-stream bytes the V1 writer emits for a write list starting at
the given sector cursor. -/
def v1records : List (List Nat × List Nat) → Nat → List Nat
  | [], _ => []
  | (name, src) :: rest, sector =>
    le32enc sector ++ le32enc (divCeil src.length SECTOR_SIZE)
      ++ toNullTerminated name
      ++ v1records rest (sector + divCeil src.length SECTOR_SIZE)

/-- The entries the round-trip claim expects: written name, the sector
cursor at which the payload was written, and its payload's sector length. -/
def expectedEntries : List (List Nat × List Nat) → Nat → List Entry
  | [], _ => []
  | (name, src) :: rest, sector =>
    Entry.mk name sector (divCeil src.length SECTOR_SIZE)
      :: expectedEntries rest (sector + divCeil src.length SECTOR_SIZE)

theorem v1writeAll_dir : ∀ (ps : List (List Nat × List Nat)) (w : V1W),
    (v1writeAll w ps).dir = w.dir ++ v1records ps w.sector
    ∧ (v1writeAll w ps).sector = w.sector + sectorSum ps := by
  intro ps
  induction ps with
  | nil =>
    intro w
    simp [v1writeAll, v1records, sectorSum]
  | cons pr rest ih =>
    intro w
    obtain ⟨name, src⟩ := pr
    simp only [v1writeAll, v1write_six]
    rcases ih (V1W.mk
      (w.dir ++ le32enc w.sector ++ le32enc (divCeil src.length SECTOR_SIZE)
        ++ toNullTerminated name)
      (((w.img.seek (w.sector * SECTOR_SIZE)).write src).write
        (remainder_padded_bytes (divCeil src.length SECTOR_SIZE) src.length))
      (w.sector + divCeil src.length SECTOR_SIZE)) with ⟨hd, hs⟩
    rw [hd, hs]
    constructor
    · simp [v1records, List.append_assoc]
    · simp only [sectorSum, List.map_cons, List.sum_cons]
      omega

theorem expectedEntries_length : ∀ (ps : List (List Nat × List Nat)) (s : Nat),
    (expectedEntries ps s).length = ps.length := by
  intro ps
  induction ps with
  | nil => intro s; rfl
  | cons pr rest ih =>
    intro s
    obtain ⟨name, src⟩ := pr
    simp [expectedEntries, ih]

theorem sectorSum_cons (name src : List Nat) (rest : List (List Nat × List Nat)) :
    sectorSum ((name, src) :: rest)
      = divCeil src.length SECTOR_SIZE + sectorSum rest := by
  simp [sectorSum]

/-- Parsing the dir bytes of a valid write list yields the expected
entries. -/
theorem v1records_parse : ∀ (ps : List (List Nat × List Nat)) (sector : Nat),
    (∀ pr ∈ ps, pr.1.length ≤ 23 ∧ ∀ c ∈ pr.1, 0 < c ∧ c < 256) →
    sector + sectorSum ps < 4294967296 →
    v1parse (v1records ps sector) = Except.ok (expectedEntries ps sector) := by
  intro ps
  induction ps with
  | nil =>
    intro sector _ _
    exact v1parse_eof [] (by simp)
  | cons pr rest ih =>
    intro sector hnames hsum
    obtain ⟨name, src⟩ := pr
    rw [sectorSum_cons] at hsum
    have hname := hnames (name, src) (List.mem_cons_self _ _)
    have hL : divCeil src.length SECTOR_SIZE + sectorSum rest
        + sector < 4294967296 := by omega
    have hdir : v1records ((name, src) :: rest) sector
        = le32enc sector ++ (le32enc (divCeil src.length SECTOR_SIZE)
          ++ (toNullTerminated name
            ++ v1records rest (sector + divCeil src.length SECTOR_SIZE))) := by
      simp [v1records, List.append_assoc]
    have hrlen : ∀ q : Nat, (v1records ((name, src) :: rest) sector).length
        = 32 + (v1records rest (sector + divCeil src.length SECTOR_SIZE)).length := by
      intro _
      rw [hdir]
      simp only [List.length_append, le32enc, List.length_cons, List.length_nil,
        toNullTerminated_length]
      omega
    rw [hdir]
    rw [v1parse_step _ (by
      simp only [List.length_append, le32enc, List.length_cons, List.length_nil,
        toNullTerminated_length]
      omega)]
    have hoff : le32dec (le32enc sector ++ (le32enc (divCeil src.length SECTOR_SIZE)
          ++ (toNullTerminated name
            ++ v1records rest (sector + divCeil src.length SECTOR_SIZE)))) = sector := by
      rw [le32dec_enc]
      exact Nat.mod_eq_of_lt (by omega)
    have hdrop4 : (le32enc sector ++ (le32enc (divCeil src.length SECTOR_SIZE)
          ++ (toNullTerminated name
            ++ v1records rest (sector + divCeil src.length SECTOR_SIZE)))).drop 4
        = le32enc (divCeil src.length SECTOR_SIZE)
          ++ (toNullTerminated name
            ++ v1records rest (sector + divCeil src.length SECTOR_SIZE)) :=
      List.drop_left' rfl
    have hlen : le32dec (le32enc (divCeil src.length SECTOR_SIZE)
          ++ (toNullTerminated name
            ++ v1records rest (sector + divCeil src.length SECTOR_SIZE)))
        = divCeil src.length SECTOR_SIZE := by
      rw [le32dec_enc]
      exact Nat.mod_eq_of_lt (by omega)
    have hdrop8 : (le32enc sector ++ (le32enc (divCeil src.length SECTOR_SIZE)
          ++ (toNullTerminated name
            ++ v1records rest (sector + divCeil src.length SECTOR_SIZE)))).drop 8
        = toNullTerminated name
          ++ v1records rest (sector + divCeil src.length SECTOR_SIZE) := by
      rw [show (8 : Nat) = 4 + 4 from rfl, ← List.drop_drop,
        List.drop_left' (show (le32enc sector).length = 4 from rfl),
        List.drop_left' (show (le32enc (divCeil src.length SECTOR_SIZE)).length = 4
          from rfl)]
    have hdrop32 : (le32enc sector ++ (le32enc (divCeil src.length SECTOR_SIZE)
          ++ (toNullTerminated name
            ++ v1records rest (sector + divCeil src.length SECTOR_SIZE)))).drop 32
        = v1records rest (sector + divCeil src.length SECTOR_SIZE) := by
      rw [show (32 : Nat) = 4 + (4 + 24) from rfl, ← List.drop_drop,
        List.drop_left' (show (le32enc sector).length = 4 from rfl),
        show (4 : Nat) + 24 = 4 + 24 from rfl, ← List.drop_drop,
        List.drop_left' (show (le32enc (divCeil src.length SECTOR_SIZE)).length = 4
          from rfl),
        List.drop_left' (toNullTerminated_length name)]
    rw [hoff, hdrop4, hlen, hdrop8, hdrop32]
    rw [readNullTerminated_encode name _ hname.1 hname.2]
    rw [ih (sector + divCeil src.length SECTOR_SIZE)
      (fun pr hpr => hnames pr (List.mem_cons_of_mem _ hpr)) (by omega)]
    rfl

/-- The claim id is C1 (amended).  V1 round-trip: for every sequence of
(name, payload) pairs in which each name has at most 23 characters all with
code points in 1..255, and whose total payload sector count is below 2^32
(the width of the on-disk offset and length fields), writing through the V1
writer into empty sinks and parsing the resulting dir with the V1 parser
yields exactly one entry per written pair, in order, whose name is the
written name, whose offset is the sector cursor at which the payload was
written, and whose length is `ceil(payload bytes / 2048)`. -/
theorem c1_v1_roundtrip (ps : List (List Nat × List Nat))
    (hnames : ∀ pr ∈ ps, pr.1.length ≤ 23 ∧ ∀ c ∈ pr.1, 0 < c ∧ c < 256)
    (hsize : sectorSum ps < 4294967296) :
    v1parse ((v1writeAll (V1W.mk [] (Sink.mk [] 0) 0) ps).dir)
      = Except.ok (expectedEntries ps 0)
    ∧ (expectedEntries ps 0).length = ps.length := by
  constructor
  · rw [(v1writeAll_dir ps (V1W.mk [] (Sink.mk [] 0) 0)).1]
    exact v1records_parse ps 0 hnames (by omega)
  · exact expectedEntries_length ps 0

/-- Witness for C1: one pair (name "A", a one-byte payload) round-trips to
the single expected entry. -/
theorem c1_v1_roundtrip_witness :
    v1parse ((v1writeAll (V1W.mk [] (Sink.mk [] 0) 0) [([65], [9])]).dir)
      = Except.ok (expectedEntries [([65], [9])] 0)
    ∧ (expectedEntries [([65], [9])] 0).length = 1 :=
  c1_v1_roundtrip [([65], [9])] (by decide) (by decide)

theorem le32enc_length (n : Nat) : (le32enc n).length = 4 := rfl

theorem le16enc_length (n : Nat) : (le16enc n).length = 2 := rfl

theorem le16dec_take2 : ∀ l : List Nat, le16dec (l.take 2) = le16dec l
  | [] => rfl
  | [_] => rfl
  | _ :: _ :: _ => rfl

theorem le16dec_enc_self (n : Nat) : le16dec (le16enc n) = n % 65536 := by
  simp only [le16enc, le16dec]
  omega

theorem overwrite_length_ge (bytes : List Nat) (p : Nat) (d : List Nat) :
    p + d.length ≤ (overwrite bytes p d).length := by
  rw [overwrite_length]
  omega

theorem overwrite_length_ge' (bytes : List Nat) (p : Nat) (d : List Nat) :
    bytes.length ≤ (overwrite bytes p d).length := by
  rw [overwrite_length]
  omega

/-- The success path of `V2Writer::write`: with at least eight credits and
remaining capacity, the call succeeds, performs the eight sink operations,
and advances the sector cursor and written count. -/
theorem v2write_ok (w : V2W) (name src : List Nat) (cap : Nat)
    (hcap : 8 ≤ cap) (h : w.written < w.entries) :
    v2write w name src cap = (WResult.ok, V2W.mk
      ((((((((w.img.seek (w.sector * SECTOR_SIZE)).write src).write
        (remainder_padded_bytes (divCeil src.length SECTOR_SIZE) src.length)).seek
        (VERSION_2_HEADER_ENTRY_OFFSET + VERSION_2_HEADER_ENTRY_SIZE * w.written)).write
        (le32enc w.sector)).write (le16enc (divCeil src.length SECTOR_SIZE))).write
        (le16enc 0)).write (toNullTerminated name))
      (w.sector + divCeil src.length SECTOR_SIZE) w.entries (w.written + 1)) := by
  simp only [v2write]
  rw [if_neg (by omega)]
  rw [runOps_full _ _ _ (by
    simp only [v2writeOps, List.length_cons, List.length_nil]
    omega)]
  simp only [v2writeOps, List.foldl_cons, List.foldl_nil]

/-- Reading back the 16-bit length slot from the final directory-slot
writes: the later reserved-zero and name writes do not disturb it. -/
theorem slot_readback (b2 : List Nat) (q0 offv lenv : Nat) (nm : List Nat) :
    ((overwrite (overwrite (overwrite (overwrite b2 q0 (le32enc offv))
        (q0 + 4) (le16enc lenv)) (q0 + 4 + 2) (le16enc 0))
      (q0 + 4 + 2 + 2) nm).drop (q0 + 4)).take 2 = le16enc lenv := by
  have hb4 : q0 + 4 + 2
      ≤ (overwrite (overwrite b2 q0 (le32enc offv)) (q0 + 4) (le16enc lenv)).length := by
    have h := overwrite_length_ge (overwrite b2 q0 (le32enc offv)) (q0 + 4)
      (le16enc lenv)
    rw [le16enc_length] at h
    omega
  have hb5 : q0 + 4 + 2
      ≤ (overwrite (overwrite (overwrite b2 q0 (le32enc offv)) (q0 + 4)
          (le16enc lenv)) (q0 + 4 + 2) (le16enc 0)).length := by
    have h := overwrite_length_ge' (overwrite (overwrite b2 q0 (le32enc offv))
      (q0 + 4) (le16enc lenv)) (q0 + 4 + 2) (le16enc 0)
    omega
  rw [overwrite_slice_of_ge _ (q0 + 4 + 2 + 2) nm (q0 + 4) 2 (by omega) hb5,
    overwrite_slice_of_ge _ (q0 + 4 + 2) (le16enc 0) (q0 + 4) 2 (by omega) hb4]
  have h := overwrite_read_back (overwrite b2 q0 (le32enc offv)) (q0 + 4)
    (le16enc lenv)
  rw [le16enc_length] at h
  exact h

/-- After a successful V2 write, the two bytes of the slot's length field
hold the little-endian encoding of the truncated sector length. -/
theorem v2write_slot_len (w : V2W) (name src : List Nat) (cap : Nat)
    (hcap : 8 ≤ cap) (h : w.written < w.entries) :
    (((v2write w name src cap).2.img.bytes).drop
        (VERSION_2_HEADER_ENTRY_OFFSET + VERSION_2_HEADER_ENTRY_SIZE * w.written
          + 4)).take 2
      = le16enc (divCeil src.length SECTOR_SIZE) := by
  rw [v2write_ok w name src cap hcap h]
  simp only [Sink.seek, Sink.write, le32enc_length, le16enc_length]
  exact slot_readback _ _ _ _ _

/-- The claim id is C7 (amended).  The V2 writer performs no validation of
the 16-bit length slot: a write whose payload sector length does not fit in
16 bits is accepted (returns ok), and the value stored in the slot is the
little-endian encoding of the length reduced mod 65536 — a silent
truncation, not a rejection. -/
theorem c7_v2_length_truncation (w : V2W) (name src : List Nat) (cap : Nat)
    (hcap : 8 ≤ cap) (h : w.written < w.entries) :
    (v2write w name src cap).1 = WResult.ok
    ∧ le16dec (((v2write w name src cap).2.img.bytes).drop
        (VERSION_2_HEADER_ENTRY_OFFSET + VERSION_2_HEADER_ENTRY_SIZE * w.written
          + 4))
      = divCeil src.length SECTOR_SIZE % 65536 := by
  constructor
  · rw [v2write_ok w name src cap hcap h]
  · rw [← le16dec_take2, v2write_slot_len w name src cap hcap h,
      le16dec_enc_self]

/-- The claim id is C7 (counterexample).  The claim as stated is false: a
payload of 65536 sectors (128 MiB) is not rejected — the write returns ok
and the 16-bit slot silently stores 65536 mod 65536 = 0. -/
theorem c7_counterexample :
    (v2write (V2W.mk (Sink.mk [] 0) 1 1 0) [] (List.replicate 134217728 0) 8).1
      = WResult.ok
    ∧ le16dec (((v2write (V2W.mk (Sink.mk [] 0) 1 1 0) []
        (List.replicate 134217728 0) 8).2.img.bytes).drop 12) = 0
    ∧ divCeil (List.replicate 134217728 (0 : Nat)).length SECTOR_SIZE = 65536 := by
  have hA : divCeil (List.replicate 134217728 (0 : Nat)).length SECTOR_SIZE
      = 65536 := by
    rw [List.length_replicate]
    norm_num [divCeil, SECTOR_SIZE]
  refine ⟨?_, ?_, hA⟩
  · rw [v2write_ok _ _ _ 8 (by omega) (by decide)]
  · have hslot := v2write_slot_len (V2W.mk (Sink.mk [] 0) 1 1 0) []
      (List.replicate 134217728 0) 8 (by omega) (by decide)
    rw [show VERSION_2_HEADER_ENTRY_OFFSET + VERSION_2_HEADER_ENTRY_SIZE
        * (V2W.mk (Sink.mk [] 0) 1 1 0).written + 4 = 12 from rfl] at hslot
    rw [← le16dec_take2, hslot, hA]
    rfl

/-- Witness for C7: a small payload (one sector) is also accepted and its
slot stores `1 % 65536 = 1`, by the same theorem. -/
theorem c7_v2_length_truncation_witness :
    (v2write (V2W.mk (Sink.mk [] 0) 1 2 0) [65] [7] 8).1 = WResult.ok
    ∧ le16dec (((v2write (V2W.mk (Sink.mk [] 0) 1 2 0) [65] [7] 8).2.img.bytes).drop
        (VERSION_2_HEADER_ENTRY_OFFSET + VERSION_2_HEADER_ENTRY_SIZE
          * (V2W.mk (Sink.mk [] 0) 1 2 0).written + 4))
      = divCeil ([7] : List Nat).length SECTOR_SIZE % 65536 :=
  c7_v2_length_truncation (V2W.mk (Sink.mk [] 0) 1 2 0) [65] [7] 8
    (by omega) (by decide)

/-- The success path of `V2Writer::new`: with three credits the header seek
and the two header writes all succeed. -/
theorem v2new_ok (img : Sink) (n cap : Nat) (hcap : 3 ≤ cap) :
    v2new img n cap = (true, V2W.mk
      (((img.seek 0).write VERSION_2_HEADER).write (le32enc n))
      (divCeil (VERSION_2_HEADER_ENTRY_OFFSET + VERSION_2_HEADER_ENTRY_SIZE * n)
        SECTOR_SIZE)
      n 0) := by
  simp only [v2new]
  rw [runOps_full _ _ _ (by
    simp only [List.length_cons, List.length_nil]
    omega)]
  simp only [List.foldl_cons, List.foldl_nil]

theorem VERSION_2_HEADER_length : (VERSION_2_HEADER : List Nat).length = 4 := rfl

/-- After a successful `V2Writer::new`, the first eight sink bytes are the
magic followed by the little-endian entry count. -/
theorem v2new_header_bytes (img : Sink) (n cap : Nat) (hcap : 3 ≤ cap) :
    (v2new img n cap).2.img.bytes.take 8 = VERSION_2_HEADER ++ le32enc n := by
  rw [v2new_ok img n cap hcap]
  simp only [Sink.seek, Sink.write, VERSION_2_HEADER_length, Nat.zero_add]
  rw [show (8 : Nat) = 4 + 4 from rfl, List.take_add]
  have hb1len : 4 ≤ (overwrite img.bytes 0 VERSION_2_HEADER).length := by
    have h := overwrite_length_ge img.bytes 0 VERSION_2_HEADER
    rw [VERSION_2_HEADER_length] at h
    omega
  have hsl := overwrite_slice_of_ge (overwrite img.bytes 0 VERSION_2_HEADER)
    4 (le32enc n) 0 4 (by omega) (by omega)
  rw [List.drop_zero, List.drop_zero] at hsl
  have hrb0 := overwrite_read_back img.bytes 0 VERSION_2_HEADER
  rw [VERSION_2_HEADER_length, List.drop_zero] at hrb0
  have hrb1 := overwrite_read_back (overwrite img.bytes 0 VERSION_2_HEADER)
    4 (le32enc n)
  rw [le32enc_length] at hrb1
  rw [hsl, hrb0, hrb1]

/-- The data sector cursor of a fresh V2 writer is at least one sector, so
the data region starts beyond the 40 header bytes a one-entry table needs. -/
theorem v2new_sector_ge (n : Nat) :
    1 ≤ divCeil (VERSION_2_HEADER_ENTRY_OFFSET + VERSION_2_HEADER_ENTRY_SIZE * n)
      SECTOR_SIZE := by
  simp only [divCeil, VERSION_2_HEADER_ENTRY_OFFSET, VERSION_2_HEADER_ENTRY_SIZE,
    SECTOR_SIZE]
  omega

/-- The four directory-slot writes of a V2 write call do not disturb any
byte at or beyond position `p` when the whole slot ends before `p`. -/
theorem slot_writes_preserve (b2 : List Nat) (q0 offv lenv : Nat)
    (nm : List Nat) (p : Nat) (hp : q0 + 8 + nm.length ≤ p)
    (hlen : p ≤ b2.length) :
    (overwrite (overwrite (overwrite (overwrite b2 q0 (le32enc offv))
        (q0 + 4) (le16enc lenv)) (q0 + 4 + 2) (le16enc 0))
      (q0 + 4 + 2 + 2) nm).drop p = b2.drop p := by
  have l3 : b2.length ≤ (overwrite b2 q0 (le32enc offv)).length :=
    overwrite_length_ge' _ _ _
  have l4 : b2.length ≤ (overwrite (overwrite b2 q0 (le32enc offv)) (q0 + 4)
      (le16enc lenv)).length :=
    le_trans l3 (overwrite_length_ge' _ _ _)
  have l5 : b2.length ≤ (overwrite (overwrite (overwrite b2 q0 (le32enc offv))
      (q0 + 4) (le16enc lenv)) (q0 + 4 + 2) (le16enc 0)).length :=
    le_trans l4 (overwrite_length_ge' _ _ _)
  rw [overwrite_drop_of_le _ (q0 + 4 + 2 + 2) nm p (by omega) (by omega),
    overwrite_drop_of_le _ (q0 + 4 + 2) (le16enc 0) p
      (by rw [le16enc_length]; omega) (by omega),
    overwrite_drop_of_le _ (q0 + 4) (le16enc lenv) p
      (by rw [le16enc_length]; omega) (by omega),
    overwrite_drop_of_le _ q0 (le32enc offv) p
      (by rw [le32enc_length]; omega) (by omega)]

/-- Reading the payload back from the data region: the padding write that
follows it starts exactly at its end and does not disturb it. -/
theorem payload_readback (b0 src pad : List Nat) (p : Nat) :
    ((overwrite (overwrite b0 p src) (p + src.length) pad).drop p).take src.length
      = src := by
  have hb1 : p + src.length ≤ (overwrite b0 p src).length :=
    overwrite_length_ge _ _ _
  rw [overwrite_slice_of_ge (overwrite b0 p src) (p + src.length) pad p
    src.length (Nat.le_refl _) hb1]
  exact overwrite_read_back b0 p src

/-- Reading the payload back through the padding write and the four
directory-slot writes of one V2 write call. -/
theorem data_region_readback (b0 src pad nm : List Nat) (p q0 offv lenv : Nat)
    (hp : q0 + 8 + nm.length ≤ p) :
    ((overwrite (overwrite (overwrite (overwrite (overwrite (overwrite b0 p src)
          (p + src.length) pad) q0 (le32enc offv)) (q0 + 4) (le16enc lenv))
        (q0 + 4 + 2) (le16enc 0)) (q0 + 4 + 2 + 2) nm).drop p).take src.length
      = src := by
  have hb2len : p ≤ (overwrite (overwrite b0 p src) (p + src.length) pad).length := by
    have h1 := overwrite_length_ge b0 p src
    have h2 := overwrite_length_ge' (overwrite b0 p src) (p + src.length) pad
    omega
  rw [slot_writes_preserve _ q0 offv lenv nm p hp hb2len]
  exact payload_readback b0 src pad p

/-- After constructing a V2 writer for at least one entry and performing one
successful write, the payload bytes sit exactly at byte offset
`initial sector * SECTOR_SIZE` of the sink. -/
theorem v2_first_payload (img : Sink) (N cap1 cap2 : Nat) (name src : List Nat)
    (hN : 1 ≤ N) (hcap1 : 3 ≤ cap1) (hcap2 : 8 ≤ cap2) :
    (v2write (v2new img N cap1).2 name src cap2).1 = WResult.ok
    ∧ (((v2write (v2new img N cap1).2 name src cap2).2.img.bytes).drop
        (divCeil (VERSION_2_HEADER_ENTRY_OFFSET + VERSION_2_HEADER_ENTRY_SIZE * N)
          SECTOR_SIZE * SECTOR_SIZE)).take src.length = src := by
  rw [v2new_ok img N cap1 hcap1]
  rw [v2write_ok _ name src cap2 hcap2 (by simpa using hN)]
  refine ⟨rfl, ?_⟩
  simp only [Sink.seek, Sink.write, le32enc_length, le16enc_length,
    Nat.mul_zero, Nat.add_zero]
  have hS1 : 1 ≤ divCeil (VERSION_2_HEADER_ENTRY_OFFSET
      + VERSION_2_HEADER_ENTRY_SIZE * N) SECTOR_SIZE := v2new_sector_ge N
  have hS2048 : SECTOR_SIZE ≤ divCeil (VERSION_2_HEADER_ENTRY_OFFSET
      + VERSION_2_HEADER_ENTRY_SIZE * N) SECTOR_SIZE * SECTOR_SIZE := by
    have h := Nat.mul_le_mul_right SECTOR_SIZE hS1
    rw [Nat.one_mul] at h
    exact h
  exact data_region_readback _ src _ (toNullTerminated name) _
    VERSION_2_HEADER_ENTRY_OFFSET _ _ (by
      rw [toNullTerminated_length]
      have hE : VERSION_2_HEADER_ENTRY_OFFSET = 8 := rfl
      have hsv : SECTOR_SIZE = 2048 := rfl
      omega)

/-- A successful V2 write advances the sector cursor by exactly the
payload's sector length and the written count by one. -/
theorem v2write_ok_advance (w : V2W) (name src : List Nat) (cap : Nat) :
    (v2write w name src cap).1 = WResult.ok →
      (v2write w name src cap).2.sector = w.sector + divCeil src.length SECTOR_SIZE
      ∧ (v2write w name src cap).2.written = w.written + 1 := by
  simp only [v2write]
  by_cases hcap : w.entries ≤ w.written
  · rw [if_pos hcap]
    intro h
    simp at h
  · rw [if_neg hcap]
    rcases hrun : runOps (v2writeOps w.sector (divCeil src.length SECTOR_SIZE)
        name src) w cap with ⟨ok, w'⟩
    cases ok with
    | false =>
      intro h
      simp at h
    | true =>
      intro _
      have hs := runOps_preserves (fun u : V2W => u.sector)
        (v2writeOps w.sector (divCeil src.length SECTOR_SIZE) name src)
        (v2writeOps_sector _ _ _ _) w cap
      have hw := runOps_preserves (fun u : V2W => u.written)
        (v2writeOps w.sector (divCeil src.length SECTOR_SIZE) name src)
        (v2writeOps_written _ _ _ _) w cap
      rw [hrun] at hs hw
      constructor
      · show w'.sector + divCeil src.length SECTOR_SIZE = _
        rw [hs]
      · show w'.written + 1 = _
        rw [hw]

/-- The payload together with its zero padding occupies whole sectors. -/
theorem remainder_whole_sectors (src : List Nat) :
    (src ++ remainder_padded_bytes (divCeil src.length SECTOR_SIZE)
        src.length).length
      = divCeil src.length SECTOR_SIZE * SECTOR_SIZE := by
  simp only [List.length_append, remainder_padded_bytes, List.length_replicate,
    divCeil, SECTOR_SIZE]
  omega

/-- The claim id is C9.  V2 layout arithmetic: constructing a V2 writer with
entry count `N` (fitting a u32) writes the magic and the 4-byte
little-endian count at byte offset 0 and sets the data sector cursor to
`ceil((8 + 32 * N) / 2048)`; the first payload of a new archive lands at
byte `ceil((8 + 32 * N) / 2048) * 2048`; each successful write advances the
cursor by exactly `ceil(payload bytes / 2048)` sectors; and payload plus
padding fills whole sectors. -/
theorem c9_v2_layout :
    (∀ (img : Sink) (N cap : Nat), N < 4294967296 → 3 ≤ cap →
        (v2new img N cap).1 = true
        ∧ (v2new img N cap).2.img.bytes.take 8 = VERSION_2_HEADER ++ le32enc N
        ∧ (v2new img N cap).2.sector = divCeil (8 + 32 * N) SECTOR_SIZE)
    ∧ (∀ (img : Sink) (N cap1 cap2 : Nat) (name src : List Nat),
        1 ≤ N → 3 ≤ cap1 → 8 ≤ cap2 →
        (v2write (v2new img N cap1).2 name src cap2).1 = WResult.ok
        ∧ (((v2write (v2new img N cap1).2 name src cap2).2.img.bytes).drop
            (divCeil (8 + 32 * N) SECTOR_SIZE * SECTOR_SIZE)).take src.length
          = src)
    ∧ (∀ (w : V2W) (name src : List Nat) (cap : Nat),
        (v2write w name src cap).1 = WResult.ok →
          (v2write w name src cap).2.sector
            = w.sector + divCeil src.length SECTOR_SIZE)
    ∧ (∀ src : List Nat,
        (src ++ remainder_padded_bytes (divCeil src.length SECTOR_SIZE)
            src.length).length
          = divCeil src.length SECTOR_SIZE * SECTOR_SIZE) := by
  refine ⟨?_, ?_, ?_, remainder_whole_sectors⟩
  · intro img N cap _ hcap
    refine ⟨?_, v2new_header_bytes img N cap hcap, ?_⟩
    · rw [v2new_ok img N cap hcap]
    · rw [v2new_ok img N cap hcap]
      rfl
  · intro img N cap1 cap2 name src hN h1 h2
    exact v2_first_payload img N cap1 cap2 name src hN h1 h2
  · intro w name src cap h
    exact (v2write_ok_advance w name src cap h).1

/-- Witness for C9 at concrete inputs: a fresh one-entry archive has the
magic and count in its first eight bytes, its first payload at byte 2048,
and an empty-payload write advances the cursor by zero sectors. -/
theorem c9_v2_layout_witness :
    ((v2new (Sink.mk [] 0) 1 3).1 = true
      ∧ (v2new (Sink.mk [] 0) 1 3).2.img.bytes.take 8
        = VERSION_2_HEADER ++ le32enc 1
      ∧ (v2new (Sink.mk [] 0) 1 3).2.sector = divCeil (8 + 32 * 1) SECTOR_SIZE)
    ∧ ((v2write (v2new (Sink.mk [] 0) 1 3).2 [65] [7, 8] 8).1 = WResult.ok
      ∧ (((v2write (v2new (Sink.mk [] 0) 1 3).2 [65] [7, 8] 8).2.img.bytes).drop
          (divCeil (8 + 32 * 1) SECTOR_SIZE * SECTOR_SIZE)).take
            ([7, 8] : List Nat).length = [7, 8])
    ∧ (v2write (V2W.mk (Sink.mk [] 0) 0 1 0) [] [] 8).2.sector
        = 0 + divCeil ([] : List Nat).length SECTOR_SIZE :=
  ⟨c9_v2_layout.1 (Sink.mk [] 0) 1 3 (by omega) (by omega),
   c9_v2_layout.2.1 (Sink.mk [] 0) 1 3 8 [65] [7, 8] (by omega) (by omega)
     (by omega),
   c9_v2_layout.2.2.1 (V2W.mk (Sink.mk [] 0) 0 1 0) [] [] 8 (by decide)⟩

/-- The claim id is C1 (counterexample).  The round-trip claim as stated is
false for two reasons.  First, names are not preserved: writing one entry
whose name is 24 copies of the character with code 65 yields a parsed name
of only 23 copies (the encoder truncates to 23 bytes), so the parsed entry
is not equal to the written one.  Second, lengths are stored as 32-bit
values: writing a payload of 2^43 zero bytes (2^32 sectors) stores and
parses back a length of 0, while `ceil(payload bytes / 2048)` is 2^32. -/
theorem c1_counterexample :
    (v1parse ((v1writeAll (V1W.mk [] (Sink.mk [] 0) 0)
        [(List.replicate 24 65, [])]).dir)
      = Except.ok [Entry.mk (List.replicate 23 65) 0 0]
    ∧ List.replicate 23 65 ≠ List.replicate 24 65)
    ∧ (v1parse ((v1writeAll (V1W.mk [] (Sink.mk [] 0) 0)
        [([65], List.replicate 8796093022208 0)]).dir)
      = Except.ok [Entry.mk [65] 0 0]
    ∧ divCeil (List.replicate 8796093022208 (0 : Nat)).length SECTOR_SIZE
        = 4294967296
    ∧ (0 : Nat) ≠ 4294967296) := by
  have hA : divCeil (List.replicate 8796093022208 (0 : Nat)).length SECTOR_SIZE
      = 4294967296 := by
    rw [List.length_replicate]
    norm_num [divCeil, SECTOR_SIZE]
  refine ⟨⟨?_, by decide⟩, ?_, hA, by omega⟩
  · have hdir : (v1writeAll (V1W.mk [] (Sink.mk [] 0) 0)
        [(List.replicate 24 65, [])]).dir
        = [0, 0, 0, 0, 0, 0, 0, 0] ++ List.replicate 23 65 ++ [0] := by decide
    rw [hdir]
    rw [v1parse_step _ (by decide)]
    have hdrop : ([0, 0, 0, 0, 0, 0, 0, 0] ++ List.replicate 23 65
        ++ [0]).drop 32 = ([] : List Nat) := by decide
    rw [hdrop, v1parse_eof [] (by decide)]
    rfl
  · have hdir : (v1writeAll (V1W.mk [] (Sink.mk [] 0) 0)
        [([65], List.replicate 8796093022208 0)]).dir
        = [0, 0, 0, 0, 0, 0, 0, 0, 65] ++ List.replicate 23 0 := by
      rw [(v1writeAll_dir [([65], List.replicate 8796093022208 0)]
        (V1W.mk [] (Sink.mk [] 0) 0)).1]
      show [] ++ v1records [([65], List.replicate 8796093022208 0)] 0 = _
      rw [List.nil_append]
      show le32enc 0 ++ le32enc (divCeil (List.replicate 8796093022208
          (0 : Nat)).length SECTOR_SIZE) ++ toNullTerminated [65]
        ++ v1records [] (0 + divCeil (List.replicate 8796093022208
          (0 : Nat)).length SECTOR_SIZE) = _
      rw [hA]
      decide
    rw [hdir]
    rw [v1parse_step _ (by decide)]
    have hdrop : ([0, 0, 0, 0, 0, 0, 0, 0, 65]
        ++ List.replicate 23 0).drop 32 = ([] : List Nat) := by decide
    rw [hdrop, v1parse_eof [] (by decide)]
    rfl

end GtaImg
